import Mathlib

/-!
Shallow embedding in Lean 4 of the ShadowAttack repository
(src/lisa.py and src/video_preprocess.py), together with proofs
of the behavioural properties claimed for it.

Conventions used throughout the embedding:
* images are an abstract type parameter `Img` (the pipeline never
  inspects pixels itself; it only moves buffers around);
* class labels are `Int` (numpy integer labels);
* the numpy arrays of `lisa.py` become Lean `List`s, with numpy's
  strided assignment `a[0::2] = b` rendered as an explicit
  interleaving and element assignment `a[i] = v` as `List.set`;
* fallible operations (out-of-range indexing, missing registry
  entries, broadcast mismatches) return `Option`, `none` marking
  the Python exception path;
* real-valued computation (softmax) is carried out over `ℚ`, with
  the exponential abstracted as a parameter `e : ℚ → ℚ` whose only
  relevant property is positivity.
-/

namespace ShadowAttack

/-- Embeds `Logger` from src/lisa.py (lines 32-45): an in-memory list of
already-terminated lines plus a destination file name. -/
structure Logger where
  file : String
  log : List String
deriving DecidableEq

/-- Embeds `Logger.add` (lines 37-40): whatever `verbose` is, append the
single entry `text ++ e` to the buffer (`verbose` only controls the
console echo, which has no effect on the buffer). -/
def Logger.add (l : Logger) (text : String) (e : String) (verbose : Bool) : Logger :=
  { l with log := l.log ++ [text ++ e] }

/-- The file content produced by `Logger.save` (lines 42-45): the
concatenation, in order, of all buffered entries. -/
def Logger.saveContent (l : Logger) : String :=
  String.join l.log

/-- Embeds `Logger.save`: returns the logger state after the call together
with the text written to the file.  The Python method only reads
`self.log`, so the state component is the unchanged logger. -/
def Logger.save (l : Logger) : Logger × String :=
  (l, l.saveContent)

/-- Embeds `TrafficSignDataset.__init__` (src/lisa.py lines 48-52): the
constructor stores `x` and `y` as given; it performs no validation of any
kind (in particular no length comparison between `x` and `y`). -/
structure TrafficSignDataset (α : Type) where
  x : List α
  y : List Int

/-- Embeds `TrafficSignDataset.__len__` (lines 54-55): the length of the
image sequence alone; `y` plays no part. -/
def TrafficSignDataset.len {α : Type} (d : TrafficSignDataset α) : Nat :=
  d.x.length

/-- Embeds `TrafficSignDataset.__getitem__` (lines 57-60): fetch
`x[item]` and `y[item]`; an out-of-range access raises, rendered here as
`none`. -/
def TrafficSignDataset.getitem {α : Type} (d : TrafficSignDataset α) (i : Nat) :
    Option (α × Int) := do
  let a ← d.x[i]?
  let b ← d.y[i]?
  pure (a, b)

/-- The external collaborators of `adversarial_augmentation`
(src/lisa.py lines 159-173).

`registry` — Modelled from the spec: the composite
`position_list[judge_mask_type("LISA", label)]` lookup lives in
`utils.py`, which is not part of this repository snapshot; per the spec
it is a mapping from class label to a shadow-casting position template
in which a label may have no entry, and the lookup then fails fatally
(rendered as `none`).

`draw_shadow` — the external shadow synthesis primitive: from one random
draw (six coordinate offsets plus an opacity, bundled in the abstract
type `Draw`), the source image and the position template, produce the
pair (shadow image, shadow area).

`shadow_edge_blur` — the external edge blur primitive, applied with the
fixed kernel radius 3.

`zeroImg` — the all-zeros image buffer produced by `np.zeros`. -/
structure AugConfig (Img Tmpl Draw : Type) where
  registry : Int → Option Tmpl
  draw_shadow : Draw → Img → Tmpl → Img × Img
  shadow_edge_blur : Img → Img → Nat → Img
  zeroImg : Img

/-- The shadow twin written into slot `i + 1` of the augmented data array
(src/lisa.py lines 169-171): `shadow_edge_blur(shadow_image, shadow_area, 3)`
where `(shadow_image, shadow_area) = draw_shadow(draw, image, pos_list, opacity)`. -/
def shadowTwin {Img Tmpl Draw : Type} (cfg : AugConfig Img Tmpl Draw)
    (d : Draw) (img : Img) (t : Tmpl) : Img :=
  cfg.shadow_edge_blur (cfg.draw_shadow d img t).1 (cfg.draw_shadow d img t).2 3

/-- The mutable-array state of one `adversarial_augmentation` call: the
caller's original arrays plus the two freshly allocated output arrays. -/
structure AugState (Img : Type) where
  ori_data : List Img
  ori_labels : List Int
  data_train : List Img
  labels_train : List Int
deriving DecidableEq

/-- Interleaving `[f a0, g a0, f a1, g a1, ...]`: the shape produced by
writing through the numpy strides `[0::2]` (slots `f`) and `[1::2]`
(slots `g`) of a length-`2N` array. -/
def interleaveWith {α β : Type} (f g : α → β) : List α → List β
  | [] => []
  | a :: rest => f a :: g a :: interleaveWith f g rest

/-- Embeds src/lisa.py lines 162-165: allocate `data_train` and
`labels_train` of length `2N`, then `data_train[0::2] = ori_data_train`
(odd slots still hold the `np.zeros` fill) and
`labels_train[0::2] = labels_train[1::2] = ori_labels_train`. -/
def augInit {Img Tmpl Draw : Type} (cfg : AugConfig Img Tmpl Draw)
    (s : AugState Img) : AugState Img :=
  { s with
    data_train := interleaveWith id (fun _ => cfg.zeroImg) s.ori_data
    labels_train := interleaveWith id id s.ori_labels }

/-- Embeds the loop of src/lisa.py lines 167-171, iteration counter `j`
standing for the Python index `i = 2*j`; `fuel` is the number of
iterations left.  Each iteration reads `labels_train[2j]` and
`data_train[2j]`, resolves the mask template for that label (fatal when
absent), and assigns the blurred shadow twin to `data_train[2j+1]`
(whose in-bounds check mirrors the numpy index check). -/
def augLoopSt {Img Tmpl Draw : Type} (cfg : AugConfig Img Tmpl Draw)
    (draws : Nat → Draw) : Nat → Nat → AugState Img → Option (AugState Img)
  | 0, _, s => some s
  | fuel + 1, j, s => do
    let lbl ← s.labels_train[2 * j]?
    let tmpl ← cfg.registry lbl
    let img ← s.data_train[2 * j]?
    let _ ← s.data_train[2 * j + 1]?
    augLoopSt cfg draws fuel (j + 1)
      { s with data_train := s.data_train.set (2 * j + 1) (shadowTwin cfg (draws j) img tmpl) }

/-- Embeds `adversarial_augmentation` (src/lisa.py lines 159-173) as a
state transformer: the strided copies of lines 164-165 require the two
original arrays to have equal length (numpy broadcast, else a raised
`ValueError` rendered as `none`), after which the loop fills every odd
slot of `data_train`. -/
def adversarial_augmentation_st {Img Tmpl Draw : Type} (cfg : AugConfig Img Tmpl Draw)
    (draws : Nat → Draw) (s : AugState Img) : Option (AugState Img) :=
  if s.ori_data.length = s.ori_labels.length then
    augLoopSt cfg draws s.ori_data.length 0 (augInit cfg s)
  else none

/-- The call interface of `adversarial_augmentation`: from the original
arrays, return the pair `(data_train, labels_train)` described by the
final state. -/
def adversarial_augmentation {Img Tmpl Draw : Type} (cfg : AugConfig Img Tmpl Draw)
    (draws : Nat → Draw) (ori_data : List Img) (ori_labels : List Int) :
    Option (List Img × List Int) :=
  (adversarial_augmentation_st cfg draws ⟨ori_data, ori_labels, [], []⟩).map
    fun s => (s.data_train, s.labels_train)

/-- Embeds lines 128-129 of `training` (src/lisa.py): in every epoch the
extra training set is recomputed from the function arguments
`train_data` / `train_labels` themselves — `adversarial_augmentation`
of the originals when `adv_train`, the originals unchanged otherwise.
`drawsE` is that epoch's stream of random shadow parameters. -/
def epochExtra {Img Tmpl Draw : Type} (adv_train : Bool) (cfg : AugConfig Img Tmpl Draw)
    (drawsE : Nat → Draw) (train_data : List Img) (train_labels : List Int) :
    Option (List Img × List Int) :=
  if adv_train then adversarial_augmentation cfg drawsE train_data train_labels
  else some (train_data, train_labels)

/-- The sequence of per-epoch training sets built by the epoch loop of
`training` (src/lisa.py lines 126-134), `draws e` being the random
draws consumed during epoch `e`. -/
def trainingExtraSets {Img Tmpl Draw : Type} (adv_train : Bool) (cfg : AugConfig Img Tmpl Draw)
    (draws : Nat → Nat → Draw) (train_data : List Img) (train_labels : List Int)
    (numEpoch : Nat) : List (Option (List Img × List Int)) :=
  (List.range numEpoch).map fun epoch => epochExtra adv_train cfg (draws epoch) train_data train_labels

/-- Softmax over a list of logits, the exponential abstracted as `e`
(the Python `torch.softmax(logits, 0)`): entry `i` is
`e x_i / Σ_j e x_j`.  All properties proved about it assume only
`0 < e x`, which the real exponential satisfies. -/
def softmax (e : ℚ → ℚ) (xs : List ℚ) : List ℚ :=
  xs.map fun x => e x / (xs.map e).sum

/-- The index returned by `torch.argmax` on a vector: the first position
holding the maximal value (0 on an empty vector, where torch raises). -/
def argmaxIdx (xs : List ℚ) : Nat :=
  match xs.max? with
  | some m => xs.indexOf m
  | none => 0

/-- Embeds `test_single_image` (src/lisa.py lines 210-230) from the point
where the image is in memory: `model` is the composite of loading,
resizing to 32x32 and the CNN forward pass, producing the logit vector;
`predict = softmax(logits)`; `index = argmax(predict)`;
`confidence = predict[index]`; two lines are appended to the logger; the
Python return value is the pair `(index, index == ground_truth)`. -/
def test_single_image {Img : Type} (e : ℚ → ℚ) (model : Img → List ℚ)
    (img : Img) (ground_truth : Nat) (logger : Logger) : (Nat × Bool) × Logger :=
  let predict := softmax e (model img)
  let index := argmaxIdx predict
  let confidence := predict.getD index 0
  let lg := (logger.add (s!"Correct: {index == ground_truth}") " " true).add
    (s!"Predict: {index} Confidence: {confidence * 100}%") "\n" true
  ((index, index == ground_truth), lg)

/-- The confidence value computed (and logged) by `test_single_image`:
the softmax probability mass on the argmax class. -/
def single_image_confidence {Img : Type} (e : ℚ → ℚ) (model : Img → List ℚ)
    (img : Img) : ℚ :=
  (softmax e (model img)).getD (argmaxIdx (softmax e (model img))) 0

/-- The decimal value of a digit character, `none` on a non-digit. -/
def charDigit (c : Char) : Option Nat :=
  if '0' ≤ c ∧ c ≤ '9' then some (c.toNat - '0'.toNat) else none

/-- Decimal parsing of a character run, accumulator style; any non-digit
makes the whole parse fail, as `int(...)` raises `ValueError`. -/
def parseDigits : List Char → Nat → Option Nat
  | [], acc => some acc
  | c :: rest, acc =>
    match charDigit c with
    | some d => parseDigits rest (acc * 10 + d)
    | none => none

/-- The characters before the first dot: `x.split(".")[0]` (the whole
name when no dot occurs). -/
def stemOf : List Char → List Char
  | [] => []
  | c :: rest => if c = '.' then [] else c :: stemOf rest

/-- The numeric stem of a frame filename, the Python
`int(x.split(".")[0])`; `none` when the stem is empty or not a number
(where Python raises `ValueError`). -/
def numericStem (s : String) : Option Nat :=
  if stemOf s.data = [] then none else parseDigits (stemOf s.data) 0

/-- The sort key used on filenames, with 0 standing in for an unparsable
stem (the harness only ever sorts fully numeric listings; a non-numeric
stem aborts the Python run before any comparison). -/
def stemKey (s : String) : Nat :=
  (numericStem s).getD 0

/-- The comparison `images.sort(key=lambda x: int(x.split(".")[0]))`
induces on two filenames. -/
def stemLe (a b : String) : Bool :=
  stemKey a ≤ stemKey b

/-- The frame path `./videos/{frames_dir}/{img}` built by the harness
loop (src/lisa.py line 248). -/
def framePath (frames_dir img : String) : String :=
  s!"./videos/{frames_dir}/{img}"

/-- Embeds the per-frame loop of the `__main__` harness
(src/lisa.py lines 245-251): call `test_single_image` with ground truth
9 on each frame in order, threading the shared logger, and collect (in
evaluation order) the names of the frames whose result was `False`. -/
def sequenceLoop {Img : Type} (e : ℚ → ℚ) (model : Img → List ℚ)
    (loadImg : String → Img) (frames_dir : String) :
    List String → Logger → List String × Logger
  | [], lg => ([], lg)
  | img :: rest, lg =>
    let r := test_single_image e model (loadImg (framePath frames_dir img)) 9 lg
    let tail := sequenceLoop e model loadImg frames_dir rest r.2
    (if r.1.2 = false then img :: tail.1 else tail.1, tail.2)

/-- The report accumulated by the harness: the logged frame total and
the ordered list of failed frame names. -/
structure SequenceReport where
  total_frames : Nat
  failed_frames : List String
deriving DecidableEq

/-- Embeds the `__main__` harness (src/lisa.py lines 233-255) from the
directory listing on: sort the listing by numeric stem, log the frame
total, evaluate every frame through `test_single_image` with ground
truth 9, log the failure count and list, and save the log. -/
def sequenceMain {Img : Type} (e : ℚ → ℚ) (model : Img → List ℚ)
    (loadImg : String → Img) (frames_dir : String) (listing : List String)
    (logger : Logger) : SequenceReport × Logger :=
  let images := listing.mergeSort stemLe
  let lg0 := logger.add (s!"Total frames: {images.length}") "\n" true
  let r := sequenceLoop e model loadImg frames_dir images lg0
  let lg1 := ((r.2.add (s!"Failed: {r.1.length}") "\n" true).add (toString r.1) "\n" true)
  (⟨images.length, r.1⟩, (lg1.save).1)

/-- Embeds `Position` from src/video_preprocess.py (lines 13-18): a
percent-coordinate bounding box attached to a frame index. -/
structure Position where
  x : ℚ
  y : ℚ
  width : ℚ
  height : ℚ
  frame : Int
deriving DecidableEq

/-- Embeds `interpolate_position` (src/video_preprocess.py lines 27-35):
linear interpolation of the box fields at `frame` between the two key
positions; when the key frames coincide the first position is returned
as-is. -/
def interpolate_position (pos1 pos2 : Position) (frame : Int) : Position :=
  if pos1.frame = pos2.frame then pos1
  else
    let ratio : ℚ := ((frame - pos1.frame : Int) : ℚ) / ((pos2.frame - pos1.frame : Int) : ℚ)
    { x := pos1.x + (pos2.x - pos1.x) * ratio
      y := pos1.y + (pos2.y - pos1.y) * ratio
      width := pos1.width + (pos2.width - pos1.width) * ratio
      height := pos1.height + (pos2.height - pos1.height) * ratio
      frame := frame }

/-- The inner `for j ... break` search of
`update_sequence_with_interpolation` (lines 41-45): the first adjacent
keyframe pair `(sequence[j], sequence[j+1])` with
`sequence[j].frame <= i < sequence[j+1].frame`, interpolated at `i`;
`none` when no pair brackets `i`. -/
def findInterp : List Position → Int → Option Position
  | pos1 :: pos2 :: rest, i =>
    if pos1.frame ≤ i ∧ i < pos2.frame then some (interpolate_position pos1 pos2 i)
    else findInterp (pos2 :: rest) i
  | _, _ => none

/-- Embeds `update_sequence_with_interpolation`
(src/video_preprocess.py lines 38-46): for each `i` in
`range(frame_count)`, append the bracketing interpolation when one
exists. -/
def update_sequence_with_interpolation (sequence : List Position) (frame_count : Nat) :
    List Position :=
  (List.range frame_count).filterMap fun i => findInterp sequence (Int.ofNat i)

/-- The `frame_count` computed by `main` (src/video_preprocess.py line
97): `obj.sequence[-1].frame + 1`, the final keyframe's index plus one. -/
def mainFrameCount (sequence : List Position) : Nat :=
  (((sequence.getLastD ⟨0, 0, 0, 0, 0⟩).frame) + 1).toNat

/-- The five texts interpolated into the per-epoch `logger.add` calls of
`training` (src/lisa.py lines 146-150); their values are floating-point
metrics, abstracted here as opaque strings. -/
structure EpochLogTexts where
  t1 : String
  t2 : String
  t3 : String
  t4 : String
  t5 : String

/-- The five `logger.add` calls one epoch of `training` performs
(src/lisa.py lines 146-150), with their literal `end` arguments. -/
def training_epoch_adds (t : EpochLogTexts) (lg : Logger) : Logger :=
  ((((lg.add t.t1 " " true).add t.t2 " " true).add t.t3 " | " true).add
    t.t4 " " true).add t.t5 "\n" true

/-- The logger traffic of a whole `training` call (src/lisa.py lines
118-156): one `training_epoch_adds` block per epoch, in epoch order. -/
def training_logged (texts : Nat → EpochLogTexts) (numEpoch : Nat) (lg : Logger) : Logger :=
  (List.range numEpoch).foldl (fun l epoch => training_epoch_adds (texts epoch) l) lg

/-- The buffer entries one `training` call appends. -/
def trainingLogLines (texts : Nat → EpochLogTexts) (numEpoch : Nat) : List String :=
  (List.range numEpoch).flatMap fun epoch =>
    [(texts epoch).t1 ++ " ", (texts epoch).t2 ++ " ", (texts epoch).t3 ++ " | ",
      (texts epoch).t4 ++ " ", (texts epoch).t5 ++ "\n"]

/-- The single `logger.add` call of `test_model` (src/lisa.py line 207),
its text abstracted as an opaque string. -/
def test_model_logged (accText : String) (lg : Logger) : Logger :=
  lg.add accText "\n" true

/-- The buffer entries one `test_single_image` call appends (src/lisa.py
lines 227-228). -/
def singleImageLogLines {Img : Type} (e : ℚ → ℚ) (model : Img → List ℚ)
    (img : Img) (ground_truth : Nat) : List String :=
  let predict := softmax e (model img)
  let index := argmaxIdx predict
  let confidence := predict.getD index 0
  [s!"Correct: {index == ground_truth}" ++ " ",
    s!"Predict: {index} Confidence: {confidence * 100}%" ++ "\n"]

/-- The module-level state of src/lisa.py relevant to default arguments:
Python evaluates each `logger: Logger = Logger("log.txt")` default once,
when the enclosing `def` statement executes, so each of `training`,
`test_model` and `test_single_image` owns exactly one default `Logger`
instance for the life of the process. -/
structure LisaModuleState where
  trainingDefaultLogger : Logger
  testModelDefaultLogger : Logger
  testSingleImageDefaultLogger : Logger

/-- The three default `Logger("log.txt")` instances as created when the
module's `def` statements execute (src/lisa.py lines 118, 189, 210). -/
def lisaModuleLoaded : LisaModuleState :=
  ⟨⟨"log.txt", []⟩, ⟨"log.txt", []⟩, ⟨"log.txt", []⟩⟩

/-- A call `training(...)` that omits the `logger` argument: the shared
default instance receives the call's log lines and persists, updated,
for the next such call. -/
def callTrainingDefault (texts : Nat → EpochLogTexts) (numEpoch : Nat)
    (st : LisaModuleState) : LisaModuleState :=
  { st with trainingDefaultLogger := training_logged texts numEpoch st.trainingDefaultLogger }

/-- A call `test_model(...)` that omits the `logger` argument. -/
def callTestModelDefault (accText : String) (st : LisaModuleState) : LisaModuleState :=
  { st with testModelDefaultLogger := test_model_logged accText st.testModelDefaultLogger }

/-- A call `test_single_image(...)` that omits the `logger` argument. -/
def callTestSingleImageDefault {Img : Type} (e : ℚ → ℚ) (model : Img → List ℚ)
    (img : Img) (ground_truth : Nat) (st : LisaModuleState) :
    (Nat × Bool) × LisaModuleState :=
  let r := test_single_image e model img ground_truth st.testSingleImageDefaultLogger
  (r.1, { st with testSingleImageDefaultLogger := r.2 })

/-! Concrete instantiations used to evaluate the embedding on closed
inputs: images are natural numbers, templates are trivial, one random
draw is a natural number, and the shadow primitives are simple
arithmetic with the twin determined injectively by the draw. -/

/-- A concrete augmentation configuration: every label except 7 has a
registered template; the blurred shadow twin of image `img` under draw
`d` evaluates to `img + d + img + 3`. -/
def natAugConfig : AugConfig Nat Unit Nat where
  registry := fun lbl => if lbl = 7 then none else some ()
  draw_shadow := fun d img _ => (img + d, img)
  shadow_edge_blur := fun si sa k => si + sa + k
  zeroImg := 0

/-- The draw stream handing iteration `i` the draw `i`. -/
def idDraws : Nat → Nat := fun i => i

/-- The draw stream handing iteration `i` the draw `i + 1`. -/
def succDraws : Nat → Nat := fun i => i + 1

/-- A per-epoch family of draw streams: epoch `e`, iteration `i` gets
the draw `10 * e + i`. -/
def epochDraws : Nat → Nat → Nat := fun e i => 10 * e + i

/-- The annotation sequence of the C8 failing input: keyframes at frames
0 and 2, boxes growing from (0,0,10,10) to (10,10,20,20). -/
def seqC8 : List Position :=
  [⟨0, 0, 10, 10, 0⟩, ⟨10, 10, 20, 20, 2⟩]

/-- A concrete stand-in for the exponential: the constant 1, positive
everywhere, making softmax uniform. -/
def constOneExp : ℚ → ℚ := fun _ => 1

/-- A concrete model emitting two equal logits for every image. -/
def twoLogitModel : Nat → List ℚ := fun _ => [0, 0]

/-- A concrete positive stand-in for the exponential on the logit values
used by the harness fixtures: `x + 1`. -/
def seqExp : ℚ → ℚ := fun x => x + 1

/-- Ten-class logits whose argmax is class 9 (the harness ground
truth). -/
def goodLogits : List ℚ := [0, 0, 0, 0, 0, 0, 0, 0, 0, 1]

/-- Ten-class logits whose argmax is class 0 (a misclassification
against ground truth 9). -/
def badLogits : List ℚ := [1, 0, 0, 0, 0, 0, 0, 0, 0, 0]

/-- A concrete model that misclassifies exactly the image loaded as 1. -/
def seqModel : Nat → List ℚ := fun img => if img = 1 then badLogits else goodLogits

/-- A concrete image loader: frame `1.jpg` of directory `seq` loads as
image 1, everything else as image 0. -/
def seqLoad : String → Nat := fun path => if path = "./videos/seq/1.jpg" then 1 else 0

/-- The class index `test_single_image` predicts for the file at frame
`img` of `frames_dir`: the argmax of the softmax of the model's logits
on the loaded image. -/
def framePredictIdx {Img : Type} (e : ℚ → ℚ) (model : Img → List ℚ)
    (loadImg : String → Img) (frames_dir img : String) : Nat :=
  argmaxIdx (softmax e (model (loadImg (framePath frames_dir img))))

/-! Helper lemmas about the interleaving produced by the strided numpy
assignments. -/

theorem interleaveWith_length {α β : Type} (f g : α → β) :
    ∀ xs : List α, (interleaveWith f g xs).length = 2 * xs.length
  | [] => rfl
  | _ :: rest => by
    simp [interleaveWith, interleaveWith_length f g rest]
    omega

theorem interleaveWith_getElem_even {α β : Type} (f g : α → β) :
    ∀ (xs : List α) (i : Nat), (interleaveWith f g xs)[2 * i]? = (xs[i]?).map f
  | [], i => by simp [interleaveWith]
  | a :: rest, 0 => by simp [interleaveWith]
  | a :: rest, i + 1 => by
    have h : 2 * (i + 1) = 2 * i + 1 + 1 := by omega
    rw [h]
    simpa [interleaveWith] using interleaveWith_getElem_even f g rest i

theorem interleaveWith_getElem_odd {α β : Type} (f g : α → β) :
    ∀ (xs : List α) (i : Nat), (interleaveWith f g xs)[2 * i + 1]? = (xs[i]?).map g
  | [], i => by simp [interleaveWith]
  | a :: rest, 0 => by simp [interleaveWith]
  | a :: rest, i + 1 => by
    have h : 2 * (i + 1) + 1 = 2 * i + 1 + 1 + 1 := by omega
    rw [h]
    simpa [interleaveWith] using interleaveWith_getElem_odd f g rest i

/-- The invariant of the augmentation loop: a successful run leaves the
original arrays and the label array untouched and the data array's
length unchanged; it leaves every slot other than the odd slots of its
iteration range unchanged; and for every iteration `i` of its range it
found a registered template for the label at `2*i`, read the image at
`2*i`, and left the corresponding blurred shadow twin at `2*i + 1`. -/
theorem augLoopSt_inv {Img Tmpl Draw : Type} (cfg : AugConfig Img Tmpl Draw)
    (draws : Nat → Draw) :
    ∀ (fuel j : Nat) (s s' : AugState Img),
      augLoopSt cfg draws fuel j s = some s' →
      s'.ori_data = s.ori_data ∧ s'.ori_labels = s.ori_labels ∧
      s'.labels_train = s.labels_train ∧
      s'.data_train.length = s.data_train.length ∧
      (∀ m : Nat, (∀ i : Nat, j ≤ i → i < j + fuel → m ≠ 2 * i + 1) →
        s'.data_train[m]? = s.data_train[m]?) ∧
      (∀ i : Nat, j ≤ i → i < j + fuel →
        ∃ lbl tmpl img, s.labels_train[2 * i]? = some lbl ∧
          cfg.registry lbl = some tmpl ∧ s.data_train[2 * i]? = some img ∧
          s'.data_train[2 * i + 1]? = some (shadowTwin cfg (draws i) img tmpl))
  | 0, j, s, s', h => by
    rw [augLoopSt] at h
    cases h
    refine ⟨rfl, rfl, rfl, rfl, fun m _ => rfl, fun i hji hlt => ?_⟩
    omega
  | fuel + 1, j, s, s', h => by
    rw [augLoopSt] at h
    simp only [bind, Option.bind_eq_some] at h
    obtain ⟨lbl, hlbl, tmpl, htmpl, img, himg, chk, hchk, hrec⟩ := h
    have ih := augLoopSt_inv cfg draws fuel (j + 1)
      { s with data_train := s.data_train.set (2 * j + 1) (shadowTwin cfg (draws j) img tmpl) }
      s' hrec
    obtain ⟨iod, iol, ilt, ilen, ipres, iwrit⟩ := ih
    have hbound : 2 * j + 1 < s.data_train.length := by
      rcases List.getElem?_eq_some_iff.mp hchk with ⟨hb, _⟩
      exact hb
    refine ⟨iod, iol, ilt, by simpa using ilen, ?_, ?_⟩
    · intro m hm
      have h1 : s'.data_train[m]? =
          (s.data_train.set (2 * j + 1) (shadowTwin cfg (draws j) img tmpl))[m]? := by
        apply ipres
        intro i hji hlt
        exact hm i (by omega) (by omega)
      rw [h1]
      have hne : 2 * j + 1 ≠ m := by
        have := hm j (Nat.le_refl j) (by omega)
        omega
      exact List.getElem?_set_ne hne
    · intro i hji hlt
      rcases Nat.eq_or_lt_of_le hji with hij | hij
      · cases hij
        refine ⟨lbl, tmpl, img, hlbl, htmpl, himg, ?_⟩
        have h1 : s'.data_train[2 * j + 1]? =
            (s.data_train.set (2 * j + 1) (shadowTwin cfg (draws j) img tmpl))[2 * j + 1]? := by
          apply ipres
          intro i' hji' hlt'
          omega
        rw [h1]
        exact List.getElem?_set_self (by simpa using hbound)
      · obtain ⟨lbl', tmpl', img', h1, h2, h3, h4⟩ := iwrit i (by omega) (by omega)
        refine ⟨lbl', tmpl', img', h1, h2, ?_, h4⟩
        rw [← h3]
        exact (List.getElem?_set_ne (by omega)).symm
  termination_by fuel => fuel

/-- Characterization of a successful `adversarial_augmentation` call:
the inputs were index-aligned, the outputs have length `2N`, slot `2i`
of the data is original sample `i`, slots `2i` and `2i+1` of the labels
are original label `i`, and slot `2i+1` of the data holds the blurred
shadow twin built from sample `i`, its registered template and the
`i`-th random draw. -/
theorem adversarial_augmentation_spec {Img Tmpl Draw : Type} (cfg : AugConfig Img Tmpl Draw)
    (draws : Nat → Draw) (ori_data : List Img) (ori_labels : List Int)
    (D : List Img) (L : List Int)
    (h : adversarial_augmentation cfg draws ori_data ori_labels = some (D, L)) :
    ori_data.length = ori_labels.length ∧
    D.length = 2 * ori_data.length ∧
    L.length = 2 * ori_data.length ∧
    (∀ i : Nat, D[2 * i]? = ori_data[i]?) ∧
    (∀ i : Nat, L[2 * i]? = ori_labels[i]?) ∧
    (∀ i : Nat, L[2 * i + 1]? = ori_labels[i]?) ∧
    (∀ i : Nat, i < ori_data.length →
      ∃ lbl tmpl img, ori_labels[i]? = some lbl ∧ cfg.registry lbl = some tmpl ∧
        ori_data[i]? = some img ∧
        D[2 * i + 1]? = some (shadowTwin cfg (draws i) img tmpl)) := by
  rw [adversarial_augmentation] at h
  rcases Option.map_eq_some'.mp h with ⟨s', hst, hDL⟩
  rw [adversarial_augmentation_st] at hst
  by_cases hlen : ori_data.length = ori_labels.length
  case neg =>
    simp only [if_neg hlen] at hst
    exact absurd hst (by simp)
  case pos =>
  simp only [if_pos hlen] at hst
  obtain ⟨hod, hol, hlt, hlenD, hpres, hwrit⟩ :=
    augLoopSt_inv cfg draws ori_data.length 0 _ s' hst
  injection hDL with hD hL
  subst hD
  subst hL
  have hS0d : (augInit cfg ⟨ori_data, ori_labels, [], []⟩).data_train =
      interleaveWith id (fun _ => cfg.zeroImg) ori_data := rfl
  have hS0l : (augInit cfg ⟨ori_data, ori_labels, [], []⟩).labels_train =
      interleaveWith id id ori_labels := rfl
  refine ⟨hlen, ?_, ?_, ?_, ?_, ?_, ?_⟩
  · rw [hlenD, hS0d, interleaveWith_length]
  · rw [hlt, hS0l, interleaveWith_length, hlen]
  · intro i
    have hm : s'.data_train[2 * i]? =
        (augInit cfg ⟨ori_data, ori_labels, [], []⟩).data_train[2 * i]? := by
      apply hpres
      intro i' _ _
      omega
    rw [hm, hS0d, interleaveWith_getElem_even]
    simp
  · intro i
    rw [hlt, hS0l, interleaveWith_getElem_even]
    simp
  · intro i
    rw [hlt, hS0l, interleaveWith_getElem_odd]
    simp
  · intro i hi
    obtain ⟨lbl, tmpl, img, h1, h2, h3, h4⟩ := hwrit i (Nat.zero_le i) (by omega)
    rw [hS0l, interleaveWith_getElem_even] at h1
    rw [hS0d, interleaveWith_getElem_even] at h3
    simp only [Option.map_eq_some', id] at h1 h3
    obtain ⟨lbl0, hlbl0, rfl⟩ := h1
    obtain ⟨img0, himg0, rfl⟩ := h3
    exact ⟨lbl0, tmpl, img0, hlbl0, h2, himg0, h4⟩

/-- C1: for every original labeled set of size `N`,
`adversarial_augmentation` returns a data sequence and a label sequence
each of size exactly `2N`, in which slot `2i` holds original sample `i`
unchanged and the labels at `2i` and `2i + 1` are both the original
label of sample `i`, for all `i < N`. -/
theorem claim_C1_augmentation_doubles {Img Tmpl Draw : Type} (cfg : AugConfig Img Tmpl Draw)
    (draws : Nat → Draw) (ori_data : List Img) (ori_labels : List Int)
    (D : List Img) (L : List Int) (i : Nat)
    (hi : i < ori_data.length)
    (h : adversarial_augmentation cfg draws ori_data ori_labels = some (D, L)) :
    D.length = 2 * ori_data.length ∧ L.length = 2 * ori_data.length ∧
    D[2 * i]? = ori_data[i]? ∧ L[2 * i]? = ori_labels[i]? ∧
    L[2 * i + 1]? = ori_labels[i]? := by
  obtain ⟨_, hD, hL, hev, hlev, hlod, _⟩ :=
    adversarial_augmentation_spec cfg draws ori_data ori_labels D L h
  exact ⟨hD, hL, hev i, hlev i, hlod i⟩

/-- Witness for C1: a concrete two-sample run, `adversarial_augmentation`
evaluated on images `[10, 20]` with labels `[0, 1]` and draws `0, 1`,
sample `i = 1` inspected. -/
theorem claim_C1_augmentation_doubles_witness :
    ([10, 23, 20, 44] : List Nat).length = 2 * ([10, 20] : List Nat).length ∧
    ([0, 0, 1, 1] : List Int).length = 2 * ([10, 20] : List Nat).length ∧
    ([10, 23, 20, 44] : List Nat)[2 * 1]? = ([10, 20] : List Nat)[1]? ∧
    ([0, 0, 1, 1] : List Int)[2 * 1]? = ([0, 1] : List Int)[1]? ∧
    ([0, 0, 1, 1] : List Int)[2 * 1 + 1]? = ([0, 1] : List Int)[1]? :=
  claim_C1_augmentation_doubles natAugConfig idDraws [10, 20] [0, 1]
    [10, 23, 20, 44] [0, 0, 1, 1] 1 (by decide) (by decide)

/-- C5: if any label of the input has no registered mask template, the
`adversarial_augmentation` call fails (raises, rendered `none`) rather
than returning any augmented set at all. -/
theorem claim_C5_missing_template_fatal {Img Tmpl Draw : Type} (cfg : AugConfig Img Tmpl Draw)
    (draws : Nat → Draw) (ori_data : List Img) (ori_labels : List Int)
    (i : Nat) (lbl : Int)
    (hi : i < ori_data.length)
    (hlbl : ori_labels[i]? = some lbl)
    (hmiss : cfg.registry lbl = none) :
    adversarial_augmentation cfg draws ori_data ori_labels = none := by
  cases h : adversarial_augmentation cfg draws ori_data ori_labels with
  | none => rfl
  | some r =>
    obtain ⟨D, L⟩ := r
    obtain ⟨_, _, _, _, _, _, hwrit⟩ :=
      adversarial_augmentation_spec cfg draws ori_data ori_labels D L h
    obtain ⟨lbl', tmpl, img, h1, h2, _, _⟩ := hwrit i hi
    rw [hlbl] at h1
    injection h1 with h1
    rw [← h1] at h2
    rw [hmiss] at h2
    exact absurd h2 (by simp)

/-- Witness for C5: label 7 has no entry in the concrete registry, and
the call on the one-sample set with that label returns `none`. -/
theorem claim_C5_missing_template_fatal_witness :
    adversarial_augmentation natAugConfig idDraws [5] ([7] : List Int) = none :=
  claim_C5_missing_template_fatal natAugConfig idDraws [5] [7] 0 7
    (by decide) (by decide) (by decide)

/-- C7: two invocations of `adversarial_augmentation` on the same input
with different random draws return identical label sequences (the labels
never depend on the draws); and whenever the twin synthesis separates
distinct draws, samples whose draws differ get different pixel twins. -/
theorem claim_C7_labels_deterministic_twins_vary {Img Tmpl Draw : Type}
    (cfg : AugConfig Img Tmpl Draw) (draws1 draws2 : Nat → Draw)
    (ori_data : List Img) (ori_labels : List Int)
    (D1 D2 : List Img) (L1 L2 : List Int)
    (i : Nat)
    (h1 : adversarial_augmentation cfg draws1 ori_data ori_labels = some (D1, L1))
    (h2 : adversarial_augmentation cfg draws2 ori_data ori_labels = some (D2, L2))
    (hinj : ∀ (t : Tmpl) (img : Img) (d d' : Draw),
      shadowTwin cfg d img t = shadowTwin cfg d' img t → d = d')
    (hi : i < ori_data.length) (hdiff : draws1 i ≠ draws2 i) :
    L1 = L2 ∧ D1[2 * i + 1]? ≠ D2[2 * i + 1]? := by
  obtain ⟨_, _, _, _, h1ev, h1od, h1w⟩ :=
    adversarial_augmentation_spec cfg draws1 ori_data ori_labels D1 L1 h1
  obtain ⟨_, _, _, _, h2ev, h2od, h2w⟩ :=
    adversarial_augmentation_spec cfg draws2 ori_data ori_labels D2 L2 h2
  constructor
  · apply List.ext_getElem?
    intro m
    obtain ⟨k, hm⟩ : ∃ k, m = 2 * k ∨ m = 2 * k + 1 := ⟨m / 2, by omega⟩
    rcases hm with rfl | rfl
    · rw [h1ev k, h2ev k]
    · rw [h1od k, h2od k]
  · intro heq
    obtain ⟨lbl1, tmpl1, img1, ha1, hb1, hc1, hd1⟩ := h1w i hi
    obtain ⟨lbl2, tmpl2, img2, ha2, hb2, hc2, hd2⟩ := h2w i hi
    rw [ha1] at ha2
    injection ha2 with ha2
    rw [hc1] at hc2
    injection hc2 with hc2
    rw [ha2] at hb1
    rw [hb2] at hb1
    injection hb1 with hb1
    rw [hd1, hd2, hc2, hb1] at heq
    injection heq with heq
    exact hdiff (hinj tmpl1 img2 (draws1 i) (draws2 i) heq)

/-- Witness for C7: the same one-sample input under draw streams `i` and
`i + 1`, sample 0 inspected; the label sequences agree and the twin
slots differ. -/
theorem claim_C7_labels_deterministic_twins_vary_witness :
    ([0, 0] : List Int) = ([0, 0] : List Int) ∧
    ([10, 23] : List Nat)[2 * 0 + 1]? ≠ ([10, 24] : List Nat)[2 * 0 + 1]? :=
  claim_C7_labels_deterministic_twins_vary natAugConfig idDraws succDraws
    [10] [0] [10, 23] [10, 24] [0, 0] [0, 0] 0 (by decide) (by decide)
    (by
      intro t img d d' h
      simp only [shadowTwin, natAugConfig] at h
      omega)
    (by decide) (by decide)

/-- C6: the epoch loop of an adversarial `training` run computes every
epoch's augmented set from the original `train_data` / `train_labels`
arrays, and those arrays are never modified.  Part one:
`adversarial_augmentation` leaves the caller's original arrays exactly
as they were.  Part two: the epoch-`e` training set of the run is the
augmentation of the original arrays under epoch `e`'s draws.  Part
three: the epoch-`e` training set depends only on epoch `e`'s own draws,
never on what earlier epochs produced. -/
theorem claim_C6_originals_immutable {Img Tmpl Draw : Type} :
    (∀ (cfg : AugConfig Img Tmpl Draw) (draws : Nat → Draw) (s s' : AugState Img),
      adversarial_augmentation_st cfg draws s = some s' →
      s'.ori_data = s.ori_data ∧ s'.ori_labels = s.ori_labels) ∧
    (∀ (adv_train : Bool) (cfg : AugConfig Img Tmpl Draw) (draws : Nat → Nat → Draw)
      (train_data : List Img) (train_labels : List Int) (numEpoch e : Nat), e < numEpoch →
      (trainingExtraSets adv_train cfg draws train_data train_labels numEpoch)[e]? =
        some (epochExtra adv_train cfg (draws e) train_data train_labels)) ∧
    (∀ (adv_train : Bool) (cfg : AugConfig Img Tmpl Draw) (draws1 draws2 : Nat → Nat → Draw)
      (train_data : List Img) (train_labels : List Int) (numEpoch e : Nat),
      draws1 e = draws2 e →
      (trainingExtraSets adv_train cfg draws1 train_data train_labels numEpoch)[e]? =
        (trainingExtraSets adv_train cfg draws2 train_data train_labels numEpoch)[e]?) := by
  refine ⟨?_, ?_, ?_⟩
  · intro cfg draws s s' h
    rw [adversarial_augmentation_st] at h
    by_cases hlen : s.ori_data.length = s.ori_labels.length
    · simp only [if_pos hlen] at h
      obtain ⟨h1, h2, _⟩ := augLoopSt_inv cfg draws s.ori_data.length 0 _ s' h
      exact ⟨h1, h2⟩
    · simp only [if_neg hlen] at h
      exact absurd h (by simp)
  · intro adv cfg draws td tl n e he
    rw [trainingExtraSets, List.getElem?_map, List.getElem?_range he]
    rfl
  · intro adv cfg draws1 draws2 td tl n e hdr
    by_cases he : e < n
    · rw [trainingExtraSets, List.getElem?_map, List.getElem?_range he,
        trainingExtraSets, List.getElem?_map, List.getElem?_range he]
      simp [hdr]
    · have h1 : (trainingExtraSets adv cfg draws1 td tl n).length = n := by
        simp [trainingExtraSets]
      have h2 : (trainingExtraSets adv cfg draws2 td tl n).length = n := by
        simp [trainingExtraSets]
      rw [List.getElem?_eq_none (by omega), List.getElem?_eq_none (by omega)]

/-- Witness for C6: a concrete one-sample adversarial run over two
epochs, the three parts instantiated and evaluated. -/
theorem claim_C6_originals_immutable_witness :
    ((AugState.mk [10] ([0] : List Int) [10, 23] [0, 0]).ori_data =
        (AugState.mk [10] ([0] : List Int) [] []).ori_data ∧
      (AugState.mk [10] ([0] : List Int) [10, 23] [0, 0]).ori_labels =
        (AugState.mk [10] ([0] : List Int) [] []).ori_labels) ∧
    ((trainingExtraSets true natAugConfig epochDraws [10] [0] 2)[1]? =
      some (epochExtra true natAugConfig (epochDraws 1) [10] [0])) ∧
    ((trainingExtraSets true natAugConfig epochDraws [10] [0] 2)[0]? =
      (trainingExtraSets true natAugConfig (fun e i => epochDraws e i) [10] [0] 2)[0]?) :=
  ⟨(@claim_C6_originals_immutable Nat Unit Nat).1 natAugConfig idDraws
      (AugState.mk [10] [0] [] []) (AugState.mk [10] [0] [10, 23] [0, 0]) (by decide),
    (@claim_C6_originals_immutable Nat Unit Nat).2.1 true natAugConfig epochDraws
      [10] [0] 2 1 (by decide),
    (@claim_C6_originals_immutable Nat Unit Nat).2.2 true natAugConfig epochDraws
      (fun e i => epochDraws e i) [10] [0] 2 0 rfl⟩

/-- C10: `Logger.add` appends exactly the single entry `text ++ e` to
the buffer whatever `verbose` is, leaving existing entries in place;
`Logger.save` writes the concatenation of the buffer in order and does
not clear the buffer, so a second consecutive `save` writes identical
content. -/
theorem claim_C10_logger_algebra :
    (∀ (l : Logger) (text e : String) (verbose : Bool),
      (l.add text e verbose).log = l.log ++ [text ++ e]) ∧
    (∀ l : Logger, (l.save).1 = l) ∧
    (∀ l : Logger, (l.save).2 = String.join l.log) ∧
    (∀ l : Logger, (((l.save).1).save).2 = (l.save).2) :=
  ⟨fun _ _ _ _ => rfl, fun _ => rfl, fun _ => rfl, fun _ => rfl⟩

/-- One `training` call omitting the `logger` argument appends exactly
its lines to whatever logger it is handed. -/
theorem training_logged_log (texts : Nat → EpochLogTexts) :
    ∀ (n : Nat) (lg : Logger),
      (training_logged texts n lg).log = lg.log ++ trainingLogLines texts n
  | 0, lg => by simp [training_logged, trainingLogLines]
  | n + 1, lg => by
    rw [training_logged, List.range_succ, List.foldl_append, List.foldl_cons, List.foldl_nil]
    have ih : (training_logged texts n lg).log = lg.log ++ trainingLogLines texts n :=
      training_logged_log texts n lg
    show (training_epoch_adds (texts n) (training_logged texts n lg)).log = _
    simp [training_epoch_adds, Logger.add, ih, trainingLogLines, List.range_succ]

/-- One `test_single_image` call appends exactly its two lines to
whatever logger it is handed. -/
theorem test_single_image_log {Img : Type} (e : ℚ → ℚ) (model : Img → List ℚ)
    (img : Img) (gt : Nat) (lg : Logger) :
    (test_single_image e model img gt lg).2.log =
      lg.log ++ singleImageLogLines e model img gt := by
  simp [test_single_image, Logger.add, singleImageLogLines]

/-- C9: for each of `training`, `test_model` and `test_single_image`,
the default `logger` argument is a single `Logger` instance bound when
the `def` executed, so every call omitting the argument appends to the
same shared buffer: after two such calls the shared buffer holds the
lines of both calls in order, not only the second call's. -/
theorem claim_C9_shared_default_logger {Img : Type} :
    (∀ (st : LisaModuleState) (texts1 texts2 : Nat → EpochLogTexts) (n1 n2 : Nat),
      (callTrainingDefault texts2 n2 (callTrainingDefault texts1 n1 st)).trainingDefaultLogger.log =
        st.trainingDefaultLogger.log ++ trainingLogLines texts1 n1 ++ trainingLogLines texts2 n2) ∧
    (∀ (st : LisaModuleState) (a1 a2 : String),
      (callTestModelDefault a2 (callTestModelDefault a1 st)).testModelDefaultLogger.log =
        st.testModelDefaultLogger.log ++ [a1 ++ "\n"] ++ [a2 ++ "\n"]) ∧
    (∀ (st : LisaModuleState) (e1 e2 : ℚ → ℚ) (m1 m2 : Img → List ℚ)
      (i1 i2 : Img) (g1 g2 : Nat),
      (callTestSingleImageDefault e2 m2 i2 g2
          (callTestSingleImageDefault e1 m1 i1 g1 st).2).2.testSingleImageDefaultLogger.log =
        st.testSingleImageDefaultLogger.log ++ singleImageLogLines e1 m1 i1 g1 ++
          singleImageLogLines e2 m2 i2 g2) := by
  refine ⟨?_, ?_, ?_⟩
  · intro st texts1 texts2 n1 n2
    show (training_logged texts2 n2 (training_logged texts1 n1 st.trainingDefaultLogger)).log = _
    rw [training_logged_log, training_logged_log, List.append_assoc]
  · intro st a1 a2
    simp [callTestModelDefault, test_model_logged, Logger.add]
  · intro st e1 e2 m1 m2 i1 i2 g1 g2
    show (test_single_image e2 m2 i2 g2
      (test_single_image e1 m1 i1 g1 st.testSingleImageDefaultLogger).2).2.log = _
    rw [test_single_image_log, test_single_image_log, List.append_assoc]

/-- C2 is a code bug: evaluating `TrafficSignDataset` on mismatched
inputs — one image, two labels — shows the constructor accepts the
mismatch, the dataset reports length 1 (the image count alone), and
every index the training pipeline will touch dereferences successfully:
the run silently truncates to the image count instead of aborting. -/
theorem claim_C2_no_length_validation :
    (TrafficSignDataset.mk ([7] : List Nat) ([3, 5] : List Int)).x.length ≠
      (TrafficSignDataset.mk ([7] : List Nat) ([3, 5] : List Int)).y.length ∧
    (TrafficSignDataset.mk ([7] : List Nat) ([3, 5] : List Int)).len = 1 ∧
    ((TrafficSignDataset.mk ([7] : List Nat) ([3, 5] : List Int)).getitem 0).isSome = true ∧
    (TrafficSignDataset.mk ([7] : List Nat) ([3, 5] : List Int)).getitem 0 =
      some (7, 3) := by
  decide

/-- C8 is a code bug: on keyframes at frames 0 and 2, `main` computes
`frame_count = 3` intending to cover the annotated range 0..2, yet
`update_sequence_with_interpolation` emits positions for frames 0 and 1
only — the strict upper bound `i < sequence[j+1].frame` drops the final
annotated frame — while the interpolated frame-1 box is indeed the
linear midpoint. -/
theorem claim_C8_last_frame_dropped :
    mainFrameCount seqC8 = 3 ∧
    (update_sequence_with_interpolation seqC8 (mainFrameCount seqC8)).map Position.frame =
      [0, 1] ∧
    (update_sequence_with_interpolation seqC8 (mainFrameCount seqC8)).length = 2 ∧
    update_sequence_with_interpolation seqC8 (mainFrameCount seqC8) =
      [⟨0, 0, 10, 10, 0⟩, ⟨5, 5, 15, 15, 1⟩] := by
  have hcount : mainFrameCount seqC8 = 3 := by decide
  have e0 : findInterp seqC8 (Int.ofNat 0) = some ⟨0, 0, 10, 10, 0⟩ := by
    norm_num [seqC8, findInterp, interpolate_position, Position.mk.injEq]
  have e1 : findInterp seqC8 (Int.ofNat 1) = some ⟨5, 5, 15, 15, 1⟩ := by
    norm_num [seqC8, findInterp, interpolate_position, Position.mk.injEq]
  have e2 : findInterp seqC8 (Int.ofNat 2) = none := by
    norm_num [seqC8, findInterp]
  have hr : List.range 3 = [0, 1, 2] := rfl
  have hout : update_sequence_with_interpolation seqC8 3 =
      [⟨0, 0, 10, 10, 0⟩, ⟨5, 5, 15, 15, 1⟩] := by
    rw [update_sequence_with_interpolation, hr]
    simp only [List.filterMap_cons, List.filterMap_nil, e0, e1, e2]
  rw [hcount, hout]
  exact ⟨rfl, rfl, rfl, rfl⟩

/-- With a positive exponential and at least one logit, the softmax
denominator is positive. -/
theorem softmax_denom_pos (e : ℚ → ℚ) (xs : List ℚ) (he : ∀ x : ℚ, 0 < e x)
    (hne : xs ≠ []) : 0 < (xs.map e).sum := by
  apply List.sum_pos
  · intro a ha
    obtain ⟨x, _, rfl⟩ := List.mem_map.mp ha
    exact he x
  · simpa using hne

/-- Softmax normalization: the probabilities sum to 1. -/
theorem softmax_sum_one (e : ℚ → ℚ) (xs : List ℚ) (he : ∀ x : ℚ, 0 < e x)
    (hne : xs ≠ []) : (softmax e xs).sum = 1 := by
  have hS := softmax_denom_pos e xs he hne
  rw [softmax]
  simp only [div_eq_mul_inv]
  rw [List.sum_map_mul_right]
  exact mul_inv_cancel₀ (ne_of_gt hS)

/-- Every softmax probability lies in the unit interval. -/
theorem softmax_mem_bounds (e : ℚ → ℚ) (xs : List ℚ) (he : ∀ x : ℚ, 0 < e x)
    (v : ℚ) (hv : v ∈ softmax e xs) : 0 ≤ v ∧ v ≤ 1 := by
  rw [softmax] at hv
  obtain ⟨x, hx, rfl⟩ := List.mem_map.mp hv
  have hxne : xs ≠ [] := by
    rintro rfl
    simp at hx
  have hS := softmax_denom_pos e xs he hxne
  have hnn : ∀ b ∈ xs.map e, 0 ≤ b := by
    intro b hb
    obtain ⟨y, _, rfl⟩ := List.mem_map.mp hb
    exact le_of_lt (he y)
  constructor
  · exact div_nonneg (le_of_lt (he x)) (le_of_lt hS)
  · rw [div_le_one hS]
    exact List.single_le_sum hnn (e x) (List.mem_map_of_mem e hx)

/-- The confidence `test_single_image` computes is a unit-interval
value. -/
theorem single_image_confidence_bounds {Img : Type} (e : ℚ → ℚ) (model : Img → List ℚ)
    (img : Img) (he : ∀ x : ℚ, 0 < e x) :
    0 ≤ single_image_confidence e model img ∧ single_image_confidence e model img ≤ 1 := by
  rw [single_image_confidence, List.getD_eq_getElem?_getD]
  cases h : (softmax e (model img))[argmaxIdx (softmax e (model img))]? with
  | none => norm_num
  | some v =>
    simpa using softmax_mem_bounds e (model img) he v (List.getElem?_mem h)

/-- C3 counterexample: `test_single_image` does not return
`(predicted_class, confidence)`.  On a two-class model with equal
logits the computed softmax confidence is 1/2, while the second
component of the returned pair is the correctness flag
`index == ground_truth` — here `false` — and neither boolean reading
(0 or 1) equals the confidence. -/
theorem claim_C3_counterexample_returns_flag :
    (test_single_image constOneExp twoLogitModel 0 9 (Logger.mk "log.txt" [])).1.2 = false ∧
    single_image_confidence constOneExp twoLogitModel 0 = 1 / 2 ∧
    ((if (test_single_image constOneExp twoLogitModel 0 9 (Logger.mk "log.txt" [])).1.2
        then (1 : ℚ) else 0) ≠ single_image_confidence constOneExp twoLogitModel 0) ∧
    (1 : ℚ) ≠ single_image_confidence constOneExp twoLogitModel 0 ∧
    (0 : ℚ) ≠ single_image_confidence constOneExp twoLogitModel 0 := by
  have hs : softmax constOneExp (twoLogitModel 0) = [1 / 2, 1 / 2] := by
    norm_num [softmax, constOneExp, twoLogitModel]
  have ha : argmaxIdx [(1 : ℚ) / 2, 1 / 2] = 0 := by
    rw [argmaxIdx]
    norm_num [List.max?, List.indexOf_cons_self]
  have hconf : single_image_confidence constOneExp twoLogitModel 0 = 1 / 2 := by
    rw [single_image_confidence, hs, ha]
    rfl
  have hret : (test_single_image constOneExp twoLogitModel 0 9 (Logger.mk "log.txt" [])).1.2 =
      (argmaxIdx (softmax constOneExp (twoLogitModel 0)) == 9) := rfl
  rw [hs, ha] at hret
  have hret2 : (test_single_image constOneExp twoLogitModel 0 9 (Logger.mk "log.txt" [])).1.2 =
      false := hret
  refine ⟨hret2, hconf, ?_, ?_, ?_⟩
  · rw [hret2, hconf]
    norm_num
  · rw [hconf]
    norm_num
  · rw [hconf]
    norm_num

/-- C3 (amended): `test_single_image` returns the pair
`(predicted_class, predicted_class == ground_truth)`; the confidence it
computes and logs is the softmax probability mass on the argmax class,
lies in [0,1], and the softmax probabilities sum to 1 across all
classes. -/
theorem claim_C3_single_image_softmax {Img : Type} (e : ℚ → ℚ) (model : Img → List ℚ)
    (img : Img) (ground_truth : Nat) (lg : Logger)
    (he : ∀ x : ℚ, 0 < e x) (hne : model img ≠ []) :
    (test_single_image e model img ground_truth lg).1 =
      (argmaxIdx (softmax e (model img)),
        argmaxIdx (softmax e (model img)) == ground_truth) ∧
    single_image_confidence e model img =
      (softmax e (model img)).getD (argmaxIdx (softmax e (model img))) 0 ∧
    0 ≤ single_image_confidence e model img ∧
    single_image_confidence e model img ≤ 1 ∧
    (softmax e (model img)).sum = 1 := by
  obtain ⟨h0, h1⟩ := single_image_confidence_bounds e model img he
  exact ⟨rfl, rfl, h0, h1, softmax_sum_one e (model img) he hne⟩

/-- Witness for the amended C3: the concrete two-class fixture. -/
theorem claim_C3_single_image_softmax_witness :
    (test_single_image constOneExp twoLogitModel 0 9 (Logger.mk "log.txt" [])).1 =
      (argmaxIdx (softmax constOneExp (twoLogitModel 0)),
        argmaxIdx (softmax constOneExp (twoLogitModel 0)) == 9) ∧
    single_image_confidence constOneExp twoLogitModel 0 =
      (softmax constOneExp (twoLogitModel 0)).getD
        (argmaxIdx (softmax constOneExp (twoLogitModel 0))) 0 ∧
    0 ≤ single_image_confidence constOneExp twoLogitModel 0 ∧
    single_image_confidence constOneExp twoLogitModel 0 ≤ 1 ∧
    (softmax constOneExp (twoLogitModel 0)).sum = 1 :=
  claim_C3_single_image_softmax constOneExp twoLogitModel 0 9 (Logger.mk "log.txt" [])
    (fun _ => one_pos) (by simp [twoLogitModel])

/-- The failed-frame list the harness loop accumulates is exactly the
frames, in evaluation order, whose predicted class is not the ground
truth 9. -/
theorem sequenceLoop_failed {Img : Type} (e : ℚ → ℚ) (model : Img → List ℚ)
    (loadImg : String → Img) (frames_dir : String) :
    ∀ (l : List String) (lg : Logger),
      (sequenceLoop e model loadImg frames_dir l lg).1 =
        l.filter fun img => !(framePredictIdx e model loadImg frames_dir img == 9)
  | [], _ => rfl
  | img :: rest, lg => by
    have ih := sequenceLoop_failed e model loadImg frames_dir rest
      (test_single_image e model (loadImg (framePath frames_dir img)) 9 lg).2
    have hr : (test_single_image e model (loadImg (framePath frames_dir img)) 9 lg).1.2 =
        (framePredictIdx e model loadImg frames_dir img == 9) := rfl
    rw [sequenceLoop, List.filter_cons]
    cases hb : framePredictIdx e model loadImg frames_dir img == 9 with
    | true => simp [hr, hb, ih]
    | false => simp [hr, hb, ih]

/-- The comparison on numeric stems is transitive. -/
theorem stemLe_trans : ∀ a b c : String, stemLe a b → stemLe b c → stemLe a c := by
  intro a b c hab hbc
  simp only [stemLe, decide_eq_true_eq] at hab hbc ⊢
  omega

/-- The comparison on numeric stems is total. -/
theorem stemLe_total : ∀ a b : String, stemLe a b || stemLe b a := by
  intro a b
  simp only [stemLe, Bool.or_eq_true, decide_eq_true_eq]
  omega

/-- C4: for every directory listing, the harness report counts every
listed frame; the evaluated frame sequence is a permutation of the
listing (every file exactly once) arranged in ascending numeric-stem
order whatever order the directory listing arrived in; and the
failed-frame list is exactly the misclassified frames in evaluation
order, so it never exceeds the frame count. -/
theorem claim_C4_sequence_harness {Img : Type} (e : ℚ → ℚ) (model : Img → List ℚ)
    (loadImg : String → Img) (frames_dir : String) (listing : List String) (lg : Logger)
    (hnum : ∀ f ∈ listing, (numericStem f).isSome) :
    (sequenceMain e model loadImg frames_dir listing lg).1.total_frames = listing.length ∧
    (listing.mergeSort stemLe).Perm listing ∧
    List.Pairwise (fun a b => stemKey a ≤ stemKey b) (listing.mergeSort stemLe) ∧
    (sequenceMain e model loadImg frames_dir listing lg).1.failed_frames =
      (listing.mergeSort stemLe).filter
        (fun img => !(framePredictIdx e model loadImg frames_dir img == 9)) ∧
    (sequenceMain e model loadImg frames_dir listing lg).1.failed_frames.length ≤
      listing.length := by
  have htot : (sequenceMain e model loadImg frames_dir listing lg).1.total_frames =
      (listing.mergeSort stemLe).length := rfl
  have hfail : (sequenceMain e model loadImg frames_dir listing lg).1.failed_frames =
      (sequenceLoop e model loadImg frames_dir (listing.mergeSort stemLe)
        ((lg.add (s!"Total frames: {(listing.mergeSort stemLe).length}") "\n" true))).1 := rfl
  refine ⟨by rw [htot, List.length_mergeSort], List.mergeSort_perm listing stemLe, ?_, ?_, ?_⟩
  · have hs := List.sorted_mergeSort stemLe_trans stemLe_total listing
    exact hs.imp fun h => by simpa [stemLe] using h
  · rw [hfail, sequenceLoop_failed]
  · rw [hfail, sequenceLoop_failed]
    calc ((listing.mergeSort stemLe).filter _).length
        ≤ (listing.mergeSort stemLe).length := List.length_filter_le _ _
      _ = listing.length := List.length_mergeSort listing

/-- The fixture model's prediction on the good ten-class logits is
class 9. -/
theorem argmax_goodLogits : argmaxIdx (softmax seqExp goodLogits) = 9 := by
  have hs : softmax seqExp goodLogits =
      [1/11, 1/11, 1/11, 1/11, 1/11, 1/11, 1/11, 1/11, 1/11, 2/11] := by
    norm_num [softmax, seqExp, goodLogits]
  rw [hs, argmaxIdx]
  have hm : ([1/11, 1/11, 1/11, 1/11, 1/11, 1/11, 1/11, 1/11, 1/11, 2/11] : List ℚ).max? =
      some (2/11) := by
    rw [List.max?]
    norm_num [List.foldl, max_def]
  rw [hm]
  norm_num [List.indexOf_cons_ne, List.indexOf_cons_self]

/-- The fixture model's prediction on the bad ten-class logits is
class 0. -/
theorem argmax_badLogits : argmaxIdx (softmax seqExp badLogits) = 0 := by
  have hs : softmax seqExp badLogits =
      [2/11, 1/11, 1/11, 1/11, 1/11, 1/11, 1/11, 1/11, 1/11, 1/11] := by
    norm_num [softmax, seqExp, badLogits]
  rw [hs, argmaxIdx]
  have hm : ([2/11, 1/11, 1/11, 1/11, 1/11, 1/11, 1/11, 1/11, 1/11, 1/11] : List ℚ).max? =
      some (2/11) := by
    rw [List.max?]
    norm_num [List.foldl, max_def]
  rw [hm]
  norm_num [List.indexOf_cons_self]

/-- Witness for C4, the spec's scenario B: a three-frame directory
`0.jpg, 1.jpg, 2.jpg` with ground truth 9 where the model misclassifies
frame 1 only; the report is `total_frames = 3`,
`failed_frames = ["1.jpg"]`. -/
theorem claim_C4_sequence_harness_witness :
    (sequenceMain seqExp seqModel seqLoad "seq" ["0.jpg", "1.jpg", "2.jpg"]
      (Logger.mk "log.txt" [])).1.total_frames = 3 ∧
    ((["0.jpg", "1.jpg", "2.jpg"] : List String).mergeSort stemLe).Perm
      ["0.jpg", "1.jpg", "2.jpg"] ∧
    List.Pairwise (fun a b => stemKey a ≤ stemKey b)
      ((["0.jpg", "1.jpg", "2.jpg"] : List String).mergeSort stemLe) ∧
    (sequenceMain seqExp seqModel seqLoad "seq" ["0.jpg", "1.jpg", "2.jpg"]
      (Logger.mk "log.txt" [])).1.failed_frames = ["1.jpg"] ∧
    (sequenceMain seqExp seqModel seqLoad "seq" ["0.jpg", "1.jpg", "2.jpg"]
      (Logger.mk "log.txt" [])).1.failed_frames.length ≤ 3 := by
  obtain ⟨h1, h2, h3, h4, h5⟩ := claim_C4_sequence_harness seqExp seqModel seqLoad "seq"
    ["0.jpg", "1.jpg", "2.jpg"] (Logger.mk "log.txt" []) (by decide)
  have hsort : (["0.jpg", "1.jpg", "2.jpg"] : List String).mergeSort stemLe =
      ["0.jpg", "1.jpg", "2.jpg"] :=
    List.mergeSort_of_sorted (by decide)
  have hm0 : seqModel (seqLoad (framePath "seq" "0.jpg")) = goodLogits := by decide
  have hm1 : seqModel (seqLoad (framePath "seq" "1.jpg")) = badLogits := by decide
  have hm2 : seqModel (seqLoad (framePath "seq" "2.jpg")) = goodLogits := by decide
  have hf0 : framePredictIdx seqExp seqModel seqLoad "seq" "0.jpg" = 9 := by
    rw [framePredictIdx, hm0]
    exact argmax_goodLogits
  have hf1 : framePredictIdx seqExp seqModel seqLoad "seq" "1.jpg" = 0 := by
    rw [framePredictIdx, hm1]
    exact argmax_badLogits
  have hf2 : framePredictIdx seqExp seqModel seqLoad "seq" "2.jpg" = 9 := by
    rw [framePredictIdx, hm2]
    exact argmax_goodLogits
  refine ⟨h1, h2, h3, ?_, h5⟩
  rw [h4, hsort]
  simp [List.filter_cons, hf0, hf1, hf2]

end ShadowAttack
